import Mathlib

/-
Verification of the two quiz applications in this repository.

Namespace `DockerApi` embeds "Docker V1/app.py" (FastAPI REST service):
JSON values, the `normalize_and_validate` routine, `require_admin`,
`api_validate`, `api_import`, `list_quizzes` (with PostgreSQL ILIKE
semantics) and `get_quiz_json`, with the database table modelled as a
list of rows.

Namespace `QuizFlow` embeds "app.py" (Flask session quiz): the session
state, `start_test`, `submit`, the `test` view and the `result` view.
-/

set_option maxRecDepth 4000

namespace DockerApi

/-- A JSON value as Python json.load produces it (numbers restricted to
integers; the source documents carry no fractional numbers). `jnull`
doubles as the Python `None` that `dict.get` returns for a missing key. -/
inductive JVal where
  | jnull
  | jbool (b : Bool)
  | jint (n : Int)
  | jstr (s : String)
  | jarr (elems : List JVal)
  | jobj (fields : List (String × JVal))

instance : Inhabited JVal := ⟨JVal.jnull⟩

/-- Python truthiness of a JSON value: None, False, 0, "", [] and
empty objects are falsy. -/
def JVal.truthy : JVal → Bool
  | .jnull => false
  | .jbool b => b
  | .jint n => n != 0
  | .jstr s => s != ""
  | .jarr xs => !xs.isEmpty
  | .jobj fs => !fs.isEmpty

/-- `d.get(key)`: first binding of the key, `None` when absent. -/
def dictGet (fields : List (String × JVal)) (key : String) : JVal :=
  match fields.find? (fun kv => kv.1 == key) with
  | some kv => kv.2
  | none => .jnull

/-- `d.get(key, dflt)`. -/
def dictGetD (fields : List (String × JVal)) (key : String) (dflt : JVal) : JVal :=
  match fields.find? (fun kv => kv.1 == key) with
  | some kv => kv.2
  | none => dflt

/-- Python `a or b`: the first operand when truthy, otherwise the second. -/
def pyOr (a b : JVal) : JVal := if a.truthy then a else b

mutual

/-- Python `repr` of a JSON value (the string form `str` falls back to
for non-string values; only its values on scalars matter to the app,
container reprs are only ever stored as option text). -/
def pyRepr : JVal → String
  | .jnull => "None"
  | .jbool b => if b then "True" else "False"
  | .jint n => toString n
  | .jstr s => "\x27" ++ s ++ "\x27"
  | .jarr xs => "[" ++ pyReprList xs ++ "]"
  | .jobj fs => "\x7b" ++ pyReprFields fs ++ "\x7d"

/-- Comma-separated reprs of the elements of a list. -/
def pyReprList : List JVal → String
  | [] => ""
  | [v] => pyRepr v
  | v :: vs => pyRepr v ++ ", " ++ pyReprList vs

/-- Comma-separated reprs of the fields of an object. -/
def pyReprFields : List (String × JVal) → String
  | [] => ""
  | [kv] => "\x27" ++ kv.1 ++ "\x27: " ++ pyRepr kv.2
  | kv :: kvs => "\x27" ++ kv.1 ++ "\x27: " ++ pyRepr kv.2 ++ ", " ++ pyReprFields kvs

end

/-- Python `str(v)`: identity on strings, `repr`-like otherwise. -/
def pyStr (v : JVal) : String :=
  match v with
  | .jstr s => s
  | _ => pyRepr v

/-- `str.strip()` on the character list: drop whitespace at both ends. -/
def stripL (cs : List Char) : List Char :=
  ((cs.dropWhile Char.isWhitespace).reverse.dropWhile Char.isWhitespace).reverse

/-- Python `s.strip()`. -/
def pyStrip (s : String) : String := ⟨stripL s.data⟩

/-- Digit run of a Python integer literal after the first digit:
decimal digits with single underscores allowed between digits. -/
def parseUDigitsAux : Nat → List Char → Option Nat
  | acc, [] => some acc
  | acc, c :: cs =>
      if c.isDigit then parseUDigitsAux (acc * 10 + (c.toNat - 48)) cs
      else if c == '_' then
        match cs with
        | d :: cs2 =>
            if d.isDigit then parseUDigitsAux (acc * 10 + (d.toNat - 48)) cs2 else none
        | [] => none
      else none

/-- Nonempty digit run starting with a digit. -/
def parseUDigits : List Char → Option Nat
  | [] => none
  | c :: cs => if c.isDigit then parseUDigitsAux (c.toNat - 48) cs else none

/-- Python `int(s)` on a string: strip whitespace, optional sign,
ASCII decimal digits with underscore separators; `none` when `int`
raises `ValueError`. -/
def pyIntOfString (s : String) : Option Int :=
  match stripL s.data with
  | '+' :: cs => (parseUDigits cs).map (fun n => Int.ofNat n)
  | '-' :: cs => (parseUDigits cs).map (fun n => -(Int.ofNat n))
  | cs => (parseUDigits cs).map (fun n => Int.ofNat n)

/-- The `int(a)` / `int(str(a).strip())` try-chain of
`normalize_and_validate`: `int()` succeeds directly on ints and bools
and on numeric strings (leading and trailing whitespace allowed, which
also subsumes the `str(a).strip()` fallback); for None, arrays and
objects both attempts raise, since their `str` form never parses as an
integer (it starts with a letter or a bracket). -/
def toAnsInt : JVal → Option Int
  | .jint n => some n
  | .jbool b => some (if b then 1 else 0)
  | .jstr s => pyIntOfString s
  | _ => none

/-- A validated question entry, as appended to `items`:
`{"q": q, "options": options, "correct": ans_idx}`. -/
structure QItem where
  q : String
  options : List String
  correct : Int
deriving DecidableEq

/-- Failure of the per-entry validation, before the position prefix is
attached: a structural defect with its message tail, or a Python
runtime error (AttributeError from `.strip()` on a non-string). -/
inductive EntryErr where
  | defect (detail : String)
  | crash
deriving DecidableEq

/-- Failure of a request handler: an `HTTPException(status, detail)`
or an unhandled Python runtime error. -/
inductive VErr where
  | httpError (status : Nat) (detail : String)
  | crash
deriving DecidableEq

/-- `q = (it.get("q") or it.get("question") or "").strip()` followed by
the `if not q` check. `.strip()` on a truthy non-string raises. -/
def getQText (fs : List (String × JVal)) : Except EntryErr String :=
  match pyOr (dictGet fs "q") (pyOr (dictGet fs "question") (.jstr "")) with
  | .jstr s =>
      let q := pyStrip s
      if q == "" then .error (.defect "missing question text") else .ok q
  | _ => .error .crash

/-- The options list: from the `options` array when present, otherwise
from the keys "1".."4"; `None` entries become `""`, others `str(x)`. -/
def getOptions (fs : List (String × JVal)) : List String :=
  match dictGet fs "options" with
  | .jarr xs => xs.map (fun x => match x with | .jnull => "" | v => pyStr v)
  | _ =>
      [dictGet fs "1", dictGet fs "2", dictGet fs "3", dictGet fs "4"].map
        (fun x => match x with | .jnull => "" | v => pyStr v)

/-- `a is None or a == ""`. -/
def aMissing : JVal → Bool
  | .jnull => true
  | .jstr s => s == ""
  | _ => false

/-- `a = it.get("a", None)` followed by the missing check and the
integer conversion try-chain. -/
def getAnsInt (fs : List (String × JVal)) : Except EntryErr Int :=
  let a := dictGet fs "a"
  if aMissing a then .error (.defect "missing correct answer (a)")
  else
    match toAnsInt a with
    | some n => .ok n
    | none => .error (.defect "invalid answer index")

/-- `if 1 <= ans_idx <= 4: ans_idx -= 1`. -/
def mkAnsIdx (n : Int) : Int := if 1 ≤ n ∧ n ≤ 4 then n - 1 else n

/-- The body of the validation loop for one entry, without the `Q{i}: `
message prefix (the prefix is attached by `processEntry`). -/
def entryCheck (it : JVal) : Except EntryErr QItem :=
  match it with
  | .jobj fs =>
      match getQText fs with
      | .error e => .error e
      | .ok q =>
          let options := getOptions fs
          if options.length ≠ 4 then .error (.defect "must provide exactly 4 options")
          else if options.any (fun o => o == "" || pyStrip o == "") then
            .error (.defect "options cannot be empty")
          else
            match getAnsInt fs with
            | .error e => .error e
            | .ok n =>
                if 0 ≤ mkAnsIdx n ∧ mkAnsIdx n < 4 then .ok ⟨q, options, mkAnsIdx n⟩
                else .error (.defect "answer (a) must be 1–4 (or 0–3)")
  | _ => .error (.defect "not an object")

/-- The raw integer the validation derives from the `a` field of an
entry, before the 1–4 adjustment (used to state the normalization
invariant). -/
def rawAnsOf (it : JVal) : Option Int :=
  match it with
  | .jobj fs =>
      match getAnsInt fs with
      | .ok n => some n
      | .error _ => none
  | _ => none

/-- One iteration of `for i, it in enumerate(arr, start=1)`: attach the
1-based position to the entry error. -/
def processEntry (i : Nat) (it : JVal) : Except VErr QItem :=
  match entryCheck it with
  | .ok item => .ok item
  | .error (.defect m) => .error (.httpError 400 ("Q" ++ toString i ++ ": " ++ m))
  | .error .crash => .error .crash

/-- The validation loop, accumulating `items`; `i` is the 1-based
position of the first entry of the remaining list. -/
def validateEntries : Nat → List JVal → Except VErr (List QItem)
  | _, [] => .ok []
  | i, it :: rest =>
      match processEntry i it with
      | .error e => .error e
      | .ok item =>
          match validateEntries (i + 1) rest with
          | .error e => .error e
          | .ok items => .ok (item :: items)

/-- `arr = root if isinstance(root, list) else (root.get("questions")
if isinstance(root, dict) else None)`. -/
def questionsArray (root : JVal) : JVal :=
  match root with
  | .jarr xs => .jarr xs
  | .jobj fs => dictGet fs "questions"
  | _ => .jnull

/-- The `test_name` extraction at the end of `normalize_and_validate`:
`root.get("Test Name") or root.get("testName") or (root.get("meta", {})
or {}).get("testName") or ""` for dict roots, `""` otherwise. `.get` on
a truthy non-dict `meta` raises. The result is returned as a JSON value
because the chain can yield a truthy non-string field. -/
def testNameOf (root : JVal) : Except VErr JVal :=
  match root with
  | .jobj fs =>
      let a := dictGet fs "Test Name"
      if a.truthy then .ok a
      else
        let b := dictGet fs "testName"
        if b.truthy then .ok b
        else
          let m := dictGetD fs "meta" (.jobj [])
          match (if m.truthy then m else .jobj []) with
          | .jobj mfs =>
              let c := dictGet mfs "testName"
              if c.truthy then .ok c else .ok (.jstr "")
          | _ => .error .crash
  | _ => .ok (.jstr "")

/-- Message of the initial shape check. -/
def invalidDocMsg : String :=
  "Invalid JSON: must be an array or \x7b\"questions\": [...]\x7d"

/-- `normalize_and_validate(root)`: the `if not arr or not
isinstance(arr, list)` guard collapses to requiring a nonempty array
(a falsy non-list, a truthy non-list and an empty list are all
rejected), then the loop over entries, then the test-name extraction. -/
def normalize_and_validate (root : JVal) : Except VErr (List QItem × JVal) :=
  match questionsArray root with
  | .jarr xs =>
      if xs.isEmpty then .error (.httpError 400 invalidDocMsg)
      else
        match validateEntries 1 xs with
        | .error e => .error e
        | .ok items =>
            match testNameOf root with
            | .error e => .error e
            | .ok tn => .ok (items, tn)
  | _ => .error (.httpError 400 invalidDocMsg)

/-- The request body of the validate and import endpoints. -/
structure ImportPayload where
  json : JVal
  skill : Option String
  difficulty : Option String
  yoe : Option String

/-- Response of `POST /api/quiz/validate`. -/
structure ValidateResp where
  ok : Bool
  question_count : Nat
  detected_test_name : Option JVal

/-- `api_validate`: validate and report the count; `test_name or None`. -/
def api_validate (payload : ImportPayload) : Except VErr ValidateResp :=
  match normalize_and_validate payload.json with
  | .error e => .error e
  | .ok (items, tn) =>
      .ok ⟨true, items.length, if tn.truthy then some tn else none⟩

/-- Boolean prefix test on character lists (Python `str.startswith`). -/
def isPrefB : List Char → List Char → Bool
  | [], _ => true
  | _ :: _, [] => false
  | a :: as, b :: bs => a == b && isPrefB as bs

/-- Python `s.startswith(p)`. -/
def startsWithL (s p : String) : Bool := isPrefB p.data s.data

/-- Split a character list at its first space, if any. -/
def breakAtSpace : List Char → Option (List Char × List Char)
  | [] => none
  | c :: cs =>
      if c == ' ' then some ([], cs)
      else
        match breakAtSpace cs with
        | some (a, b) => some (c :: a, b)
        | none => none

/-- Python `s.split(" ", 1)`: at most one split, at the first space. -/
def pySplitOnceSpace (s : String) : List String :=
  match breakAtSpace s.data with
  | some (a, b) => [⟨a⟩, ⟨b⟩]
  | none => [s]

/-- `require_admin(authorization)`: 401 unless the header is present,
truthy and starts with "Bearer "; 403 unless the part after the first
space equals the configured token. The `[1]` index cannot raise here
because a "Bearer "-prefixed string always contains a space. -/
def require_admin (adminToken : String) (authorization : Option String) : Except VErr Unit :=
  match authorization with
  | none => .error (.httpError 401 "Missing or invalid Authorization header")
  | some s =>
      if s == "" || !startsWithL s "Bearer " then
        .error (.httpError 401 "Missing or invalid Authorization header")
      else
        match pySplitOnceSpace s with
        | [_, rest] => if rest != adminToken then .error (.httpError 403 "Forbidden") else .ok ()
        | _ => .error .crash

/-- A row of the `quizzes` table. `skill`, `difficulty` and `yoe` are
nullable columns; `created_at` is an opaque timestamp. -/
structure QuizRec where
  id : String
  test_name : String
  skill : Option String
  difficulty : Option String
  yoe : Option String
  question_count : Nat
  json : JVal
  status : String
  created_at : Nat

/-- Python `(o or d)` for an optional string argument: `None` and `""`
are falsy. -/
def pyOrStr (o : Option String) (d : String) : String :=
  match o with
  | some s => if s == "" then d else s
  | none => d

/-- Python `s.split()`: split on whitespace runs, no empty words. -/
def splitWsAux : List Char → List Char → List String
  | acc, [] => if acc.isEmpty then [] else [⟨acc.reverse⟩]
  | acc, c :: cs =>
      if c.isWhitespace then
        (if acc.isEmpty then [] else [⟨acc.reverse⟩]) ++ splitWsAux [] cs
      else splitWsAux (c :: acc) cs

/-- Python `s.split()` on a string. -/
def pySplitWs (s : String) : List String := splitWsAux [] s.data

/-- `skill = (payload.skill or "").strip() or (test_name.split()[0] if
test_name else None) or "General"`. `.split()` on a truthy non-string
test name raises, as does `[0]` on the empty word list of a
whitespace-only test name. A first word is never empty, so the final
`or "General"` keeps it. -/
def skillOf (payloadSkill : Option String) (tnv : JVal) : Except VErr String :=
  let base := pyStrip (pyOrStr payloadSkill "")
  if base != "" then .ok base
  else if tnv.truthy then
    match tnv with
    | .jstr s =>
        match pySplitWs s with
        | [] => .error .crash
        | w :: _ => .ok w
    | _ => .error .crash
  else .ok "General"

/-- `display_name = test_name or f"Custom {skill}"`. A truthy
non-string test name cannot be stored in the `test_name` text column;
the resulting database failure is modelled as a crash. -/
def displayNameOf (tnv : JVal) (skill : String) : Except VErr String :=
  if tnv.truthy then
    match tnv with
    | .jstr s => .ok s
    | _ => .error .crash
  else .ok ("Custom " ++ skill)

/-- Response body of `POST /api/quiz/import` (url omitted; it is
`PUBLIC_BASE_URL` applied to `id`). -/
structure ImportResp where
  id : String
  test_name : String
  skill : String
  difficulty : String
  yoe : String
  count : Nat
deriving DecidableEq

/-- `api_import`: admin check, validation, metadata derivation, then a
single insert of a new row (the raw `payload.json` document is what is
stored). The generated uuid and the clock are passed as parameters; a
primary-key collision on the insert is modelled as a crash. The second
component is the table after the request: unchanged whenever the
request fails. -/
def api_import (adminToken : String) (store : List QuizRec) (payload : ImportPayload)
    (authorization : Option String) (qid : String) (now : Nat) :
    Except VErr ImportResp × List QuizRec :=
  match require_admin adminToken authorization with
  | .error e => (.error e, store)
  | .ok () =>
      match normalize_and_validate payload.json with
      | .error e => (.error e, store)
      | .ok (items, tnv) =>
          let count := items.length
          match skillOf payload.skill tnv with
          | .error e => (.error e, store)
          | .ok skill =>
              let difficulty := pyStrip (pyOrStr payload.difficulty "Mixed")
              let yoe0 := pyStrip (pyOrStr payload.yoe "")
              let yoe := if yoe0 == "" then "N/A" else yoe0
              match displayNameOf tnv skill with
              | .error e => (.error e, store)
              | .ok display_name =>
                  if store.any (fun r => r.id == qid) then (.error .crash, store)
                  else
                    (.ok ⟨qid, display_name, skill, difficulty, yoe, count⟩,
                     store ++ [⟨qid, display_name, some skill, some difficulty, some yoe,
                               count, payload.json, "published", now⟩])

/-- ASCII lowering of a character list (PostgreSQL `lower` on the
ASCII data the application handles). -/
def lowerL (cs : List Char) : List Char := cs.map Char.toLower

/-- SQL LIKE matching with `%`, `_` and the default backslash escape,
on character lists. Structured with explicit fuel so that it computes
by reduction; `likeMatch` supplies sufficient fuel, so the fuel-0 case
is never reached. -/
def likeMatchF : Nat → List Char → List Char → Bool
  | 0, _, _ => false
  | _ + 1, [], s => s.isEmpty
  | f + 1, pc :: ps, s =>
      if pc = '%' then
        likeMatchF f ps s ||
          (match s with
           | [] => false
           | _ :: s2 => likeMatchF f (pc :: ps) s2)
      else if pc = '_' then
        match s with
        | [] => false
        | _ :: s2 => likeMatchF f ps s2
      else if pc = '\\' then
        match ps with
        | [] => false
        | pc2 :: ps2 =>
            match s with
            | [] => false
            | sc :: s2 => pc2 == sc && likeMatchF f ps2 s2
      else
        match s with
        | [] => false
        | sc :: s2 => pc == sc && likeMatchF f ps s2

/-- SQL `string LIKE pattern`. -/
def likeMatch (pattern s : List Char) : Bool :=
  likeMatchF (pattern.length + s.length + 1) pattern s

/-- SQL `string ILIKE pattern`: case-insensitive LIKE. -/
def sqlILike (s pattern : String) : Bool :=
  likeMatch (lowerL pattern.data) (lowerL s.data)

/-- Python truthiness of an optional query parameter: `if skill:`
skips the filter for an absent or empty parameter. -/
def optTruthy : Option String → Option String
  | some s => if s == "" then none else some s
  | none => none

/-- The WHERE clause built by `list_quizzes` for one row:
`status='published'`, optional `skill = :skill` and
`difficulty = :difficulty`, optional
`(test_name ILIKE :q OR skill ILIKE :q)` with `:q = %search%`.
A NULL column never satisfies `=` or `ILIKE`. -/
def rowMatches (skill difficulty search : Option String) (r : QuizRec) : Bool :=
  r.status == "published" &&
  (match optTruthy skill with
   | none => true
   | some sq => r.skill == some sq) &&
  (match optTruthy difficulty with
   | none => true
   | some dq => r.difficulty == some dq) &&
  (match optTruthy search with
   | none => true
   | some q =>
       sqlILike r.test_name ("%" ++ q ++ "%") ||
         (match r.skill with
          | some sk => sqlILike sk ("%" ++ q ++ "%")
          | none => false))

/-- The rows returned by `GET /api/quizzes` (the ORDER BY and the
per-skill summary are not modelled; the claims concern membership). -/
def list_quizzes (store : List QuizRec) (skill difficulty search : Option String) :
    List QuizRec :=
  store.filter (rowMatches skill difficulty search)

/-- `GET /quizzes/{quiz_id}.json`: the `json` column of the first row
with the given id and status published, else 404. -/
def get_quiz_json (store : List QuizRec) (quiz_id : String) : Except VErr JVal :=
  match store.find? (fun r => r.id == quiz_id && r.status == "published") with
  | some r => .ok r.json
  | none => .error (.httpError 404 "Quiz not found")

/-- `%`, `_` and the escape character `\` are what SQL LIKE treats
specially; a pattern free of them matches literally. -/
def noSpecialsL (cs : List Char) : Bool :=
  cs.all (fun c => !(c == '%') && !(c == '_') && !(c == '\\'))

/-- Boolean contiguous-substring test on character lists. -/
def isInfB (n : List Char) : List Char → Bool
  | [] => isPrefB n []
  | c :: h => isPrefB n (c :: h) || isInfB n (h)

/-- The specification notion "the search string is a case-insensitive
substring of the field": contiguous substring after ASCII lowercasing
of both sides. -/
@[reducible] def ciSubstr (needle hay : String) : Prop :=
  isInfB (lowerL needle.data) (lowerL hay.data) = true

/-- Fixture for the C2 counterexample: a single-question document whose
correct answer is given in the 1–4 form (`"a": 4`). -/
def docC2 : JVal :=
  .jarr [.jobj [("q", .jstr "Capital of France?"),
                ("options", .jarr [.jstr "Paris", .jstr "Rome", .jstr "Bern", .jstr "Oslo"]),
                ("a", .jint 4)]]

/-- Fixture: import payload carrying `docC2`. -/
def payloadC2 : ImportPayload := ⟨docC2, some "Geo", none, none⟩

/-- Fixture for the C8 theorems: a published row with name "abc" and
skill "X". -/
def rowC8 : QuizRec :=
  ⟨"i1", "abc", some "X", some "Mixed", some "N/A", 1, .jnull, "published", 0⟩

/-- Fixture for the C7 witness: a published row. -/
def rowC7 : QuizRec :=
  ⟨"i1", "SAP Basis Quiz", some "SAP", some "Mixed", some "N/A", 2, .jstr "doc", "published", 0⟩

end DockerApi

namespace QuizFlow

/-- A question of the static bank `questions.json`: display text, an
ordered dict of option key/text pairs, and the answer text. -/
structure Question where
  text : String
  options : List (String × String)
  answer : String
deriving DecidableEq

instance : Inhabited Question := ⟨⟨"", [], ""⟩⟩

/-- One element of `session['answers']`: the question, the correctness
flag and the submitted option key (None when the form had none). -/
structure AnswerRec where
  question : Question
  correct : Bool
  selected_option : Option String
deriving DecidableEq

/-- The session quiz-attempt state: `session['questions']`,
`session['current_question']`, `session['score']`,
`session['answers']`. -/
structure Sess where
  questions : List Question
  current_question : Nat
  score : Nat
  answers : List AnswerRec
deriving DecidableEq

/-- Redirect target of a handler. -/
inductive Route where
  | test
  | result
deriving DecidableEq

/-- Outcome of the `test` view: render the current question (with its
1-based display number) or redirect to the result view. -/
inductive TestView where
  | page (question : Question) (number : Nat)
  | toResult
deriving DecidableEq

/-- Postcondition of `random.sample(range(n), k)` (Python standard
library): a list of `k` pairwise-distinct indices below `n`. The
sampling itself is nondeterministic, so `start_test` receives the
sampled index list as an explicit parameter constrained by this
predicate. -/
def isSample (n k : Nat) (idx : List Nat) : Prop :=
  idx.length = k ∧ idx.Nodup ∧ ∀ i ∈ idx, i < n

/-- `start_test`: store the questions at the sampled indices and reset
cursor, score and answer log. `random.sample` guarantees in-range
indices, so the `getD` default is never used under `isSample`. -/
def start_test (bank : List Question) (idx : List Nat) : Sess :=
  { questions := idx.map (fun i => bank.getD i default)
  , current_question := 0
  , score := 0
  , answers := [] }

/-- The loop over `questions[current_question]['options'].items()`:
the first key whose value equals the answer text, else None. -/
def correctOptionOf (q : Question) : Option String :=
  (q.options.find? (fun kv => kv.2 == q.answer)).map (fun kv => kv.1)

/-- `submit`: when the cursor is inside the sampled sequence, compare
the submitted option key with the looked-up correct key (Python `==`
on two `None`s is true), record the outcome, advance the cursor; in
every case redirect to the `test` view. -/
def submit (s : Sess) (form : Option String) : Sess × Route :=
  if s.current_question < s.questions.length then
    let q := s.questions.getD s.current_question default
    let correct_option := correctOptionOf q
    if form == correct_option then
      ({ s with score := s.score + 1
              , answers := s.answers ++ [⟨q, true, form⟩]
              , current_question := s.current_question + 1 }, .test)
    else
      ({ s with answers := s.answers ++ [⟨q, false, form⟩]
              , current_question := s.current_question + 1 }, .test)
  else (s, .test)

/-- The `test` view: render the current question or, once the cursor
has passed the sampled sequence, redirect to the result view. -/
def testRoute (s : Sess) : TestView :=
  if s.current_question < s.questions.length then
    .page (s.questions.getD s.current_question default) (s.current_question + 1)
  else .toResult

/-- The `result` view: the score and the incorrect answers. -/
def resultView (s : Sess) : Nat × List AnswerRec :=
  (s.score, s.answers.filter (fun a => !a.correct))

/-- A sequence of `submit` requests applied to a session state. -/
def runSubmits (s : Sess) (forms : List (Option String)) : Sess :=
  forms.foldl (fun st f => (submit st f).1) s

end QuizFlow

namespace QuizFlow

lemma length_filter_split {α : Type} (p : α → Bool) (l : List α) :
    (l.filter p).length + (l.filter (fun a => !(p a))).length = l.length := by
  induction l with
  | nil => rfl
  | cons a t ih =>
      by_cases h : p a <;> simp [List.filter_cons, h] <;> omega

lemma submit_questions_eq (s : Sess) (f : Option String) :
    (submit s f).1.questions = s.questions := by
  unfold submit
  by_cases h : s.current_question < s.questions.length
  · simp only [if_pos h]
    split <;> rfl
  · simp only [if_neg h]

lemma submit_inv (s : Sess) (f : Option String)
    (h1 : s.score = (s.answers.filter (fun a => a.correct)).length)
    (h2 : s.answers.length = s.current_question)
    (h3 : s.current_question ≤ s.questions.length) :
    (submit s f).1.score = (((submit s f).1.answers).filter (fun a => a.correct)).length ∧
    (submit s f).1.answers.length = (submit s f).1.current_question ∧
    (submit s f).1.current_question ≤ (submit s f).1.questions.length := by
  unfold submit
  by_cases h : s.current_question < s.questions.length
  · simp only [if_pos h]
    split
    · refine ⟨?_, ?_, ?_⟩ <;> (simp [List.filter_append, h1, h2]; try omega)
    · refine ⟨?_, ?_, ?_⟩ <;> (simp [List.filter_append, h1, h2]; try omega)
  · simp only [if_neg h]
    exact ⟨h1, h2, h3⟩

lemma runSubmits_inv (forms : List (Option String)) (s : Sess)
    (h1 : s.score = (s.answers.filter (fun a => a.correct)).length)
    (h2 : s.answers.length = s.current_question)
    (h3 : s.current_question ≤ s.questions.length) :
    (runSubmits s forms).score =
      ((runSubmits s forms).answers.filter (fun a => a.correct)).length ∧
    (runSubmits s forms).answers.length = (runSubmits s forms).current_question ∧
    (runSubmits s forms).current_question ≤ (runSubmits s forms).questions.length ∧
    (runSubmits s forms).questions = s.questions := by
  induction forms generalizing s with
  | nil => exact ⟨h1, h2, h3, rfl⟩
  | cons f fs ih =>
      have hstep := submit_inv s f h1 h2 h3
      have hq := submit_questions_eq s f
      have hrec := ih (submit s f).1 hstep.1 hstep.2.1 hstep.2.2
      rw [show runSubmits s (f :: fs) = runSubmits (submit s f).1 fs from rfl]
      exact ⟨hrec.1, hrec.2.1, hrec.2.2.1, by rw [hrec.2.2.2, hq]⟩

/-- C4: starting an attempt stores the questions at 5 pairwise-distinct
in-range sampled indices; after any sequence of submissions the score
never exceeds 5; and the result view's incorrect-answer list has
exactly (number of answered questions) minus (score) elements. -/
theorem attempt_sample_score_invariants (bank : List Question) (idx : List Nat)
    (forms : List (Option String)) (h : isSample bank.length 5 idx) :
    idx.length = 5 ∧ idx.Nodup ∧ (∀ i ∈ idx, i < bank.length) ∧
    (start_test bank idx).questions.length = 5 ∧
    (runSubmits (start_test bank idx) forms).score ≤ 5 ∧
    ((resultView (runSubmits (start_test bank idx) forms)).2).length =
      (runSubmits (start_test bank idx) forms).answers.length -
        (runSubmits (start_test bank idx) forms).score := by
  obtain ⟨hlen, hnd, hrange⟩ := h
  have hqlen : (start_test bank idx).questions.length = 5 := by
    simp [start_test, hlen]
  have hinv := runSubmits_inv forms (start_test bank idx) (by simp [start_test])
    (by simp [start_test]) (by simp [start_test])
  obtain ⟨i1, i2, i3, i4⟩ := hinv
  refine ⟨hlen, hnd, hrange, hqlen, ?_, ?_⟩
  · have hf : ((runSubmits (start_test bank idx) forms).answers.filter
        (fun a => a.correct)).length ≤
        (runSubmits (start_test bank idx) forms).answers.length :=
      List.length_filter_le _ _
    have : (runSubmits (start_test bank idx) forms).questions.length = 5 := by
      rw [i4, hqlen]
    omega
  · have hs := length_filter_split (fun a : AnswerRec => a.correct)
      (runSubmits (start_test bank idx) forms).answers
    simp only [resultView]
    omega

/-- C4 witness: a concrete bank of 6 questions, the sample [0,2,4,1,3]
and two submissions. -/
theorem attempt_sample_score_invariants_witness :
    ([0, 2, 4, 1, 3] : List Nat).length = 5 ∧ ([0, 2, 4, 1, 3] : List Nat).Nodup ∧
    (∀ i ∈ ([0, 2, 4, 1, 3] : List Nat), i < (List.replicate 6 (default : Question)).length) ∧
    (start_test (List.replicate 6 default) [0, 2, 4, 1, 3]).questions.length = 5 ∧
    (runSubmits (start_test (List.replicate 6 default) [0, 2, 4, 1, 3]) [none, some "a"]).score ≤ 5 ∧
    ((resultView (runSubmits (start_test (List.replicate 6 default) [0, 2, 4, 1, 3])
        [none, some "a"])).2).length =
      (runSubmits (start_test (List.replicate 6 default) [0, 2, 4, 1, 3])
        [none, some "a"]).answers.length -
        (runSubmits (start_test (List.replicate 6 default) [0, 2, 4, 1, 3])
          [none, some "a"]).score :=
  attempt_sample_score_invariants (List.replicate 6 default) [0, 2, 4, 1, 3]
    [none, some "a"] (by refine ⟨rfl, by decide, ?_⟩; intro i hi; fin_cases hi <;> decide)

/-- C9: once the cursor has reached the end of the sampled sequence, a
submission leaves the session unchanged and redirects to the `test`
view, which in that state redirects to the result view. -/
theorem submit_past_end_frame (s : Sess) (form : Option String)
    (h : s.questions.length ≤ s.current_question) :
    submit s form = (s, Route.test) ∧ testRoute s = TestView.toResult := by
  constructor
  · unfold submit
    rw [if_neg (by omega)]
  · unfold testRoute
    rw [if_neg (by omega)]

/-- C9 witness: an exhausted two-question attempt. -/
theorem submit_past_end_frame_witness :
    submit ⟨[default, default], 2, 1, []⟩ (some "b") =
      (⟨[default, default], 2, 1, []⟩, Route.test) ∧
    testRoute ⟨[default, default], 2, 1, []⟩ = TestView.toResult :=
  submit_past_end_frame ⟨[default, default], 2, 1, []⟩ (some "b") (by decide)

/-- C10 counterexample: when the form carries no option and no option
value equals the answer text, both the selected and the correct option
key are None, Python compares them equal, and the submission is
recorded as CORRECT with the score incremented — the claim says it is
recorded as incorrect with the score unchanged. -/
theorem submit_absent_option_cex :
    (submit ⟨[⟨"sample", [("a", "x"), ("b", "z")], "y"⟩], 0, 0, []⟩ none).1.score = 1 ∧
    (submit ⟨[⟨"sample", [("a", "x"), ("b", "z")], "y"⟩], 0, 0, []⟩ none).1.answers =
      [⟨⟨"sample", [("a", "x"), ("b", "z")], "y"⟩, true, none⟩] :=
  ⟨rfl, rfl⟩

/-- C10 (amended): on an unanswered question, a submission whose
selected option is absent or differs from the looked-up correct key is
appended to the log and the cursor advances, with no error; it is
recorded as incorrect with the score unchanged — except when the
selected option is absent AND no option value equals the answer text
(both keys are None and compare equal): then it is recorded as correct
and the score increments. -/
theorem submit_mismatch_recorded (s : Sess) (form : Option String)
    (h : s.current_question < s.questions.length)
    (hbad : form = none ∨
      form ≠ correctOptionOf (s.questions.getD s.current_question default)) :
    (submit s form).2 = Route.test ∧
    (submit s form).1.current_question = s.current_question + 1 ∧
    (if form = correctOptionOf (s.questions.getD s.current_question default) then
       (submit s form).1.score = s.score + 1 ∧
       (submit s form).1.answers =
         s.answers ++ [⟨s.questions.getD s.current_question default, true, form⟩]
     else
       (submit s form).1.score = s.score ∧
       (submit s form).1.answers =
         s.answers ++ [⟨s.questions.getD s.current_question default, false, form⟩]) ∧
    (form = correctOptionOf (s.questions.getD s.current_question default) →
       form = none ∧ correctOptionOf (s.questions.getD s.current_question default) = none) := by
  by_cases hc : form = correctOptionOf (s.questions.getD s.current_question default)
  · have hnone : form = none := by
      rcases hbad with h0 | h0
      · exact h0
      · exact absurd hc h0
    refine ⟨?_, ?_, ?_, fun _ => ⟨hnone, by rw [← hc, hnone]⟩⟩
    · unfold submit; rw [if_pos h]; simp [beq_iff_eq, hc]
    · unfold submit; rw [if_pos h]; simp [beq_iff_eq, hc]
    · rw [if_pos hc]
      constructor
      · unfold submit; rw [if_pos h]; simp [beq_iff_eq, hc]
      · unfold submit; rw [if_pos h]; simp [beq_iff_eq, hc]
  · have hbeq : (form == correctOptionOf (s.questions.getD s.current_question default)) = false :=
      beq_eq_false_iff_ne.mpr hc
    refine ⟨?_, ?_, ?_, fun hx => absurd hx hc⟩
    · unfold submit; rw [if_pos h]; simp only [hbeq]; rfl
    · unfold submit; rw [if_pos h]; simp only [hbeq]; rfl
    · rw [if_neg hc]
      constructor
      · unfold submit; rw [if_pos h]; simp only [hbeq]; rfl
      · unfold submit; rw [if_pos h]; simp only [hbeq]; rfl

/-- C10 witness: submitting key "a" when the correct key is "b". -/
theorem submit_mismatch_recorded_witness :
    (submit ⟨[⟨"t", [("a", "x"), ("b", "y")], "y"⟩], 0, 3, []⟩ (some "a")).1.score = 3 ∧
    (submit ⟨[⟨"t", [("a", "x"), ("b", "y")], "y"⟩], 0, 3, []⟩ (some "a")).1.current_question = 1 := by
  have h := submit_mismatch_recorded ⟨[⟨"t", [("a", "x"), ("b", "y")], "y"⟩], 0, 3, []⟩
    (some "a") (by decide) (Or.inr (by decide))
  have h3 := h.2.2.1
  rw [if_neg (by decide)] at h3
  exact ⟨h3.1, h.2.1⟩

end QuizFlow

namespace DockerApi

lemma processEntry_ok_iff (i : Nat) (it : JVal) (item : QItem) :
    processEntry i it = .ok item ↔ entryCheck it = .ok item := by
  unfold processEntry
  cases h : entryCheck it with
  | ok q => simp
  | error e => cases e <;> simp

lemma processEntry_defect (i : Nat) (it : JVal) (m : String)
    (h : entryCheck it = .error (.defect m)) :
    processEntry i it = .error (.httpError 400 ("Q" ++ toString i ++ ": " ++ m)) := by
  unfold processEntry
  rw [h]

lemma entryCheck_ok_inv (it : JVal) (item : QItem) (h : entryCheck it = .ok item) :
    ∃ fs n, it = .jobj fs ∧ getAnsInt fs = .ok n ∧ item.correct = mkAnsIdx n ∧
      0 ≤ item.correct ∧ item.correct ≤ 3 := by
  cases it with
  | jnull => simp [entryCheck] at h
  | jbool b => simp [entryCheck] at h
  | jint n => simp [entryCheck] at h
  | jstr s => simp [entryCheck] at h
  | jarr xs => simp [entryCheck] at h
  | jobj fs =>
      simp only [entryCheck] at h
      cases hq : getQText fs with
      | error e => simp [hq] at h
      | ok q =>
          simp only [hq] at h
          by_cases hlen : (getOptions fs).length ≠ 4
          · rw [if_pos hlen] at h
            exact Except.noConfusion h
          · rw [if_neg hlen] at h
            by_cases hemp : ((getOptions fs).any fun o => o == "" || pyStrip o == "") = true
            · rw [if_pos hemp] at h
              exact Except.noConfusion h
            · rw [if_neg hemp] at h
              cases hans : getAnsInt fs with
              | error e => simp [hans] at h
              | ok n =>
                  simp only [hans] at h
                  by_cases hrange : 0 ≤ mkAnsIdx n ∧ mkAnsIdx n < 4
                  · rw [if_pos hrange] at h
                    injection h with h2
                    subst h2
                    refine ⟨fs, n, rfl, hans, rfl, hrange.1, ?_⟩
                    show mkAnsIdx n ≤ 3
                    have := hrange.2
                    omega
                  · rw [if_neg hrange] at h
                    exact Except.noConfusion h

lemma validateEntries_ok_inv : ∀ (xs : List JVal) (i : Nat) (items : List QItem),
    validateEntries i xs = .ok items →
    items.length = xs.length ∧
    ∀ j, j < xs.length → entryCheck (xs.getD j default) = .ok (items.getD j ⟨"", [], 0⟩) := by
  intro xs
  induction xs with
  | nil =>
      intro i items h
      simp [validateEntries] at h
      subst h
      exact ⟨rfl, fun j hj => by simp at hj⟩
  | cons x t ih =>
      intro i items h
      unfold validateEntries at h
      split at h
      · simp at h
      · rename_i item0 hp
        split at h
        · simp at h
        · rename_i items' hrest
          injection h with h2
          subst h2
          have hx := (processEntry_ok_iff i x item0).mp hp
          have ht := ih (i + 1) items' hrest
          refine ⟨by simp [ht.1], ?_⟩
          intro j hj
          cases j with
          | zero => simpa using hx
          | succ j' =>
              have := ht.2 j' (by simpa using hj)
              simpa using this

lemma validateEntries_first_err : ∀ (xs : List JVal) (i j : Nat) (m : String),
    j < xs.length →
    (∀ k, k < j → ∃ itk, entryCheck (xs.getD k default) = .ok itk) →
    entryCheck (xs.getD j default) = .error (.defect m) →
    validateEntries i xs = .error (.httpError 400 ("Q" ++ toString (i + j) ++ ": " ++ m)) := by
  intro xs
  induction xs with
  | nil => intro i j m hj _ _; simp at hj
  | cons x t ih =>
      intro i j m hj hok hdef
      cases j with
      | zero =>
          have hx : entryCheck x = .error (.defect m) := by simpa using hdef
          unfold validateEntries
          rw [processEntry_defect i x m hx]
          simp
      | succ j' =>
          obtain ⟨it0, h0⟩ := hok 0 (by omega)
          have h0' : entryCheck x = .ok it0 := by simpa using h0
          have hrec := ih (i + 1) j' m (by simpa using hj)
            (fun k hk => by
              obtain ⟨itk, hitk⟩ := hok (k + 1) (by omega)
              exact ⟨itk, by simpa using hitk⟩)
            (by simpa using hdef)
          have harith : i + 1 + j' = i + (j' + 1) := by omega
          rw [harith] at hrec
          unfold validateEntries
          rw [(processEntry_ok_iff i x it0).mpr h0']
          simp [hrec]

lemma normalize_jarr (xs : List JVal) (hne : ¬xs.isEmpty = true) :
    normalize_and_validate (.jarr xs) =
      match validateEntries 1 xs with
      | .error e => .error e
      | .ok items =>
          match testNameOf (.jarr xs) with
          | .error e => .error e
          | .ok tn => .ok (items, tn) := by
  simp only [normalize_and_validate, questionsArray]
  rw [if_neg hne]

/-- C1: whenever `normalize_and_validate` accepts a document, the
number of validated entries equals the length of the input question
array, and every validated correct-answer index lies in [0,3]. -/
theorem validation_count_and_range (root : JVal) (items : List QItem) (tn : JVal)
    (h : normalize_and_validate root = .ok (items, tn)) :
    ∃ xs, questionsArray root = .jarr xs ∧ items.length = xs.length ∧
      ∀ item ∈ items, 0 ≤ item.correct ∧ item.correct ≤ 3 := by
  unfold normalize_and_validate at h
  split at h
  · rename_i xs hq
    split at h
    · simp at h
    · split at h
      · simp at h
      · rename_i items' hval
        split at h
        · simp at h
        · rename_i tn' htn
          rw [Except.ok.injEq, Prod.mk.injEq] at h
          obtain ⟨rfl, rfl⟩ := h
          have hv := validateEntries_ok_inv xs 1 items' hval
          refine ⟨xs, hq, hv.1, ?_⟩
          intro item hmem
          obtain ⟨j, hj, rfl⟩ := List.mem_iff_getElem.mp hmem
          have hj' : j < xs.length := by omega
          have he := hv.2 j hj'
          have hgd : items'.getD j ⟨"", [], 0⟩ = items'[j] := List.getD_eq_getElem _ _ (by omega)
          rw [hgd] at he
          obtain ⟨fs, n, _, _, _, h0, h3⟩ := entryCheck_ok_inv _ _ he
          exact ⟨h0, h3⟩
  · simp at h

/-- C1 witness: a concrete one-question valid document. -/
theorem validation_count_and_range_witness :
    ∃ xs, questionsArray (JVal.jarr [JVal.jobj [("q", JVal.jstr "Q1?"),
        ("options", JVal.jarr [JVal.jstr "a", JVal.jstr "b", JVal.jstr "c", JVal.jstr "d"]),
        ("a", JVal.jint 4)]]) = .jarr xs ∧
      ([⟨"Q1?", ["a", "b", "c", "d"], 3⟩] : List QItem).length = xs.length ∧
      ∀ item ∈ ([⟨"Q1?", ["a", "b", "c", "d"], 3⟩] : List QItem),
        0 ≤ item.correct ∧ item.correct ≤ 3 :=
  validation_count_and_range
    (JVal.jarr [JVal.jobj [("q", JVal.jstr "Q1?"),
        ("options", JVal.jarr [JVal.jstr "a", JVal.jstr "b", JVal.jstr "c", JVal.jstr "d"]),
        ("a", JVal.jint 4)]])
    [⟨"Q1?", ["a", "b", "c", "d"], 3⟩] (.jstr "") rfl

/-- C5: if the first j entries of the question array pass the per-entry
validation and entry j (0-based) has a structural defect, the whole
batch is rejected with an HTTP 400 whose message carries the 1-based
position j+1 of that entry and its defect text. -/
theorem validation_first_defect_position (xs : List JVal) (j : Nat) (m : String)
    (hj : j < xs.length)
    (hok : ∀ k, k < j → ∃ itk, entryCheck (xs.getD k default) = .ok itk)
    (hdef : entryCheck (xs.getD j default) = .error (.defect m)) :
    normalize_and_validate (.jarr xs) =
      .error (.httpError 400 ("Q" ++ toString (j + 1) ++ ": " ++ m)) := by
  have hne : ¬xs.isEmpty = true := by
    cases xs with
    | nil => simp at hj
    | cons a t => simp
  have hval := validateEntries_first_err xs 1 j m hj hok hdef
  have harith : 1 + j = j + 1 := by omega
  rw [harith] at hval
  rw [normalize_jarr xs hne, hval]

/-- C5 witness: a two-entry document whose second entry has a
whitespace-only question text; the rejection is `Q2: missing question
text`. -/
theorem validation_first_defect_position_witness :
    normalize_and_validate (.jarr [JVal.jobj [("q", JVal.jstr "ok?"),
        ("options", JVal.jarr [JVal.jstr "a", JVal.jstr "b", JVal.jstr "c", JVal.jstr "d"]),
        ("a", JVal.jint 1)], JVal.jobj [("question", JVal.jstr "  ")]]) =
      .error (.httpError 400 "Q2: missing question text") :=
  validation_first_defect_position
    [JVal.jobj [("q", JVal.jstr "ok?"),
        ("options", JVal.jarr [JVal.jstr "a", JVal.jstr "b", JVal.jstr "c", JVal.jstr "d"]),
        ("a", JVal.jint 1)], JVal.jobj [("question", JVal.jstr "  ")]]
    1 "missing question text" (by decide)
    (fun k hk =>
      match k, hk with
      | 0, _ => ⟨⟨"ok?", ["a", "b", "c", "d"], 0⟩, rfl⟩)
    rfl

end DockerApi

namespace DockerApi

lemma isPrefB_append (p t : List Char) : isPrefB p (p ++ t) = true := by
  induction p with
  | nil => rfl
  | cons c cs ih => simp [isPrefB, ih]

lemma isPrefB_iff (p s : List Char) : isPrefB p s = true ↔ ∃ t, s = p ++ t := by
  induction p generalizing s with
  | nil => simp [isPrefB]
  | cons a as ih =>
      cases s with
      | nil => simp [isPrefB]
      | cons b bs =>
          simp only [isPrefB, Bool.and_eq_true, beq_iff_eq, ih, List.cons_append,
            List.cons.injEq]
          constructor
          · rintro ⟨rfl, t, rfl⟩
            exact ⟨t, rfl, rfl⟩
          · rintro ⟨t, rfl, rfl⟩
            exact ⟨rfl, t, rfl⟩

lemma breakAtSpace_bearer (t : List Char) :
    breakAtSpace ("Bearer ".data ++ t) = some ("Bearer".data, t) := rfl

lemma pySplitOnceSpace_bearer (t : List Char) :
    pySplitOnceSpace ⟨"Bearer ".data ++ t⟩ = ["Bearer", ⟨t⟩] := rfl

lemma require_admin_ok_iff (tok : String) (auth : Option String) :
    require_admin tok auth = .ok () ↔ auth = some ("Bearer " ++ tok) := by
  constructor
  · intro h
    cases auth with
    | none => simp [require_admin] at h
    | some s =>
        simp only [require_admin] at h
        by_cases hc : (s == "" || !startsWithL s "Bearer ") = true
        · rw [if_pos hc] at h
          exact Except.noConfusion h
        · rw [if_neg hc] at h
          have hc' := hc
          simp at hc'
          obtain ⟨t, hst⟩ := (isPrefB_iff "Bearer ".data s.data).mp hc'.2
          have hs : s = ⟨"Bearer ".data ++ t⟩ := congrArg String.mk hst
          subst hs
          rw [pySplitOnceSpace_bearer] at h
          simp only [bne_iff_ne, ne_eq, ite_not] at h
          by_cases hbe : (⟨t⟩ : String) = tok
          · have ht : t = tok.data := congrArg String.data hbe
            subst ht
            rfl
          · rw [if_neg hbe] at h
            exact Except.noConfusion h
  · rintro rfl
    simp only [require_admin]
    have h1 : (("Bearer " ++ tok) == "") = false := by
      apply beq_eq_false_iff_ne.mpr
      intro hx
      have hlen : ("Bearer " ++ tok).data.length = 0 := by rw [hx]; rfl
      rw [show ("Bearer " ++ tok).data = "Bearer ".data ++ tok.data from rfl,
        List.length_append, show ("Bearer ".data).length = 7 from rfl] at hlen
      omega
    have h2 : startsWithL ("Bearer " ++ tok) "Bearer " = true :=
      isPrefB_append "Bearer ".data tok.data
    rw [h1, h2]
    simp only [Bool.not_true, Bool.or_false, if_false]
    rw [show ("Bearer " ++ tok) = (⟨"Bearer ".data ++ tok.data⟩ : String) from rfl,
      pySplitOnceSpace_bearer]
    rw [show (⟨tok.data⟩ : String) = tok from rfl]
    simp [bne_self_eq_false]

lemma require_admin_not_ok (tok : String) (auth : Option String)
    (h : auth ≠ some ("Bearer " ++ tok)) :
    require_admin tok auth = .error (.httpError 401 "Missing or invalid Authorization header") ∨
    require_admin tok auth = .error (.httpError 403 "Forbidden") := by
  cases auth with
  | none => exact Or.inl rfl
  | some s =>
      by_cases hc : (s == "" || !startsWithL s "Bearer ") = true
      · left
        simp only [require_admin]
        rw [if_pos hc]
      · have hc' := hc
        simp at hc'
        obtain ⟨t, hst⟩ := (isPrefB_iff "Bearer ".data s.data).mp hc'.2
        have hs : s = ⟨"Bearer ".data ++ t⟩ := congrArg String.mk hst
        subst hs
        have hv : require_admin tok (some ⟨"Bearer ".data ++ t⟩) =
            (if (⟨t⟩ : String) != tok then .error (.httpError 403 "Forbidden") else .ok ()) := by
          simp only [require_admin]
          rw [if_neg hc, pySplitOnceSpace_bearer]
        by_cases hbe : (⟨t⟩ : String) = tok
        · exfalso
          have ht : t = tok.data := congrArg String.data hbe
          subst ht
          exact h rfl
        · right
          rw [hv, if_pos (by simpa using hbe)]

lemma api_import_ok_inv (tok : String) (store : List QuizRec) (p : ImportPayload)
    (auth : Option String) (qid : String) (now : Nat) (resp : ImportResp)
    (store2 : List QuizRec)
    (h : api_import tok store p auth qid now = (.ok resp, store2)) :
    require_admin tok auth = .ok () ∧
    ∃ items tn skill dn,
      normalize_and_validate p.json = .ok (items, tn) ∧
      skillOf p.skill tn = .ok skill ∧
      displayNameOf tn skill = .ok dn ∧
      resp = ⟨qid, dn, skill, pyStrip (pyOrStr p.difficulty "Mixed"),
        (if pyStrip (pyOrStr p.yoe "") == "" then "N/A" else pyStrip (pyOrStr p.yoe "")),
        items.length⟩ ∧
      store2 = store ++ [⟨qid, dn, some skill, some (pyStrip (pyOrStr p.difficulty "Mixed")),
        some (if pyStrip (pyOrStr p.yoe "") == "" then "N/A" else pyStrip (pyOrStr p.yoe "")),
        items.length, p.json, "published", now⟩] := by
  unfold api_import at h
  cases hra : require_admin tok auth with
  | error e => simp only [hra] at h; simp at h
  | ok u =>
      cases u
      simp only [hra] at h
      cases hnv : normalize_and_validate p.json with
      | error e => simp only [hnv] at h; simp at h
      | ok pr =>
          obtain ⟨items, tn⟩ := pr
          simp only [hnv] at h
          cases hsk : skillOf p.skill tn with
          | error e => simp only [hsk] at h; simp at h
          | ok skill =>
              simp only [hsk] at h
              cases hdn : displayNameOf tn skill with
              | error e => simp only [hdn] at h; simp at h
              | ok dn =>
                  simp only [hdn] at h
                  by_cases hany : (store.any fun r => r.id == qid) = true
                  · rw [if_pos hany] at h; simp at h
                  · rw [if_neg hany] at h
                    rw [Prod.mk.injEq] at h
                    obtain ⟨h1, h2⟩ := h
                    injection h1 with h1
                    exact ⟨rfl, items, tn, skill, dn, rfl, hsk, hdn, h1.symm, h2.symm⟩

lemma api_import_error_store (tok : String) (store : List QuizRec) (p : ImportPayload)
    (auth : Option String) (qid : String) (now : Nat) (e : VErr) (store2 : List QuizRec)
    (h : api_import tok store p auth qid now = (.error e, store2)) : store2 = store := by
  unfold api_import at h
  cases hra : require_admin tok auth with
  | error e2 => simp only [hra] at h; rw [Prod.mk.injEq] at h; exact h.2.symm
  | ok u =>
      cases u
      simp only [hra] at h
      cases hnv : normalize_and_validate p.json with
      | error e2 => simp only [hnv] at h; rw [Prod.mk.injEq] at h; exact h.2.symm
      | ok pr =>
          obtain ⟨items, tn⟩ := pr
          simp only [hnv] at h
          cases hsk : skillOf p.skill tn with
          | error e2 => simp only [hsk] at h; rw [Prod.mk.injEq] at h; exact h.2.symm
          | ok skill =>
              simp only [hsk] at h
              cases hdn : displayNameOf tn skill with
              | error e2 => simp only [hdn] at h; rw [Prod.mk.injEq] at h; exact h.2.symm
              | ok dn =>
                  simp only [hdn] at h
                  by_cases hany : (store.any fun r => r.id == qid) = true
                  · rw [if_pos hany] at h; rw [Prod.mk.injEq] at h; exact h.2.symm
                  · rw [if_neg hany] at h; rw [Prod.mk.injEq] at h
                    exact absurd h.1 (by simp)

/-- C3: the import succeeds only under the header `Bearer ` followed by
the configured token, in which case exactly one new row is appended;
for an absent or any other header it fails with an authorization error
(401 or 403) and the table is unchanged; every failing import leaves
the table unchanged. -/
theorem bearer_auth_required (tok : String) (store : List QuizRec)
    (p : ImportPayload) (auth : Option String) (qid : String) (now : Nat) :
    (∀ resp store2, api_import tok store p auth qid now = (.ok resp, store2) →
        auth = some ("Bearer " ++ tok) ∧ ∃ row, store2 = store ++ [row]) ∧
    (auth ≠ some ("Bearer " ++ tok) →
        api_import tok store p auth qid now =
          (.error (.httpError 401 "Missing or invalid Authorization header"), store) ∨
        api_import tok store p auth qid now =
          (.error (.httpError 403 "Forbidden"), store)) ∧
    (∀ e store2, api_import tok store p auth qid now = (.error e, store2) →
        store2 = store) := by
  refine ⟨?_, ?_, ?_⟩
  · intro resp store2 h
    obtain ⟨hra, items, tn, skill, dn, hnv, hsk, hdn, hresp, hst⟩ :=
      api_import_ok_inv tok store p auth qid now resp store2 h
    exact ⟨(require_admin_ok_iff tok auth).mp hra, ⟨_, hst⟩⟩
  · intro hne
    rcases require_admin_not_ok tok auth hne with h401 | h403
    · left
      unfold api_import
      rw [h401]
    · right
      unfold api_import
      rw [h403]
  · intro e store2 h
    exact api_import_error_store tok store p auth qid now e store2 h

/-- C3 witness: an import request without an Authorization header is
rejected with an authorization error and the empty table is unchanged. -/
theorem bearer_auth_required_witness :
    api_import "tok" [] ⟨.jnull, none, none, none⟩ none "id-1" 0 =
      (.error (.httpError 401 "Missing or invalid Authorization header"), []) ∨
    api_import "tok" [] ⟨.jnull, none, none, none⟩ none "id-1" 0 =
      (.error (.httpError 403 "Forbidden"), []) :=
  (bearer_auth_required "tok" [] ⟨.jnull, none, none, none⟩ none "id-1" 0).2.1
    (by simp)

/-- C6: every quiz row created by a successful import records as
`question_count` exactly the number of validated entries produced from
the imported document, and the response reports the same count. -/
theorem question_count_matches (tok : String) (store : List QuizRec)
    (p : ImportPayload) (auth : Option String) (qid : String) (now : Nat)
    (resp : ImportResp) (store2 : List QuizRec)
    (h : api_import tok store p auth qid now = (.ok resp, store2)) :
    ∃ items tn row, normalize_and_validate p.json = .ok (items, tn) ∧
      store2 = store ++ [row] ∧ row.question_count = items.length ∧
      resp.count = items.length := by
  obtain ⟨hra, items, tn, skill, dn, hnv, hsk, hdn, hresp, hst⟩ :=
    api_import_ok_inv tok store p auth qid now resp store2 h
  subst hresp
  exact ⟨items, tn, _, hnv, hst, rfl, rfl⟩

/-- C6 witness: a concrete one-question import. -/
theorem question_count_matches_witness :
    ∃ items tn row,
      normalize_and_validate (JVal.jarr [JVal.jobj [("q", JVal.jstr "Q?"),
        ("1", JVal.jstr "a"), ("2", JVal.jstr "b"), ("3", JVal.jstr "c"),
        ("4", JVal.jstr "d"), ("a", JVal.jstr "2")]]) = .ok (items, tn) ∧
      ([⟨"id-1", "Custom General", some "General", some "Mixed", some "N/A", 1,
        JVal.jarr [JVal.jobj [("q", JVal.jstr "Q?"),
          ("1", JVal.jstr "a"), ("2", JVal.jstr "b"), ("3", JVal.jstr "c"),
          ("4", JVal.jstr "d"), ("a", JVal.jstr "2")]], "published", 0⟩] : List QuizRec) =
        [] ++ [row] ∧
      row.question_count = items.length ∧
      (⟨"id-1", "Custom General", "General", "Mixed", "N/A", 1⟩ : ImportResp).count =
        items.length :=
  question_count_matches "tok" []
    ⟨JVal.jarr [JVal.jobj [("q", JVal.jstr "Q?"),
      ("1", JVal.jstr "a"), ("2", JVal.jstr "b"), ("3", JVal.jstr "c"),
      ("4", JVal.jstr "d"), ("a", JVal.jstr "2")]], none, none, none⟩
    (some "Bearer tok") "id-1" 0
    ⟨"id-1", "Custom General", "General", "Mixed", "N/A", 1⟩
    [⟨"id-1", "Custom General", some "General", some "Mixed", some "N/A", 1,
      JVal.jarr [JVal.jobj [("q", JVal.jstr "Q?"),
        ("1", JVal.jstr "a"), ("2", JVal.jstr "b"), ("3", JVal.jstr "c"),
        ("4", JVal.jstr "d"), ("a", JVal.jstr "2")]], "published", 0⟩]
    rfl

end DockerApi

namespace DockerApi

lemma normalize_ok_inv (root : JVal) (items : List QItem) (tn : JVal)
    (h : normalize_and_validate root = .ok (items, tn)) :
    ∃ xs, questionsArray root = .jarr xs ∧ validateEntries 1 xs = .ok items := by
  unfold normalize_and_validate at h
  split at h
  · rename_i xs hq
    split at h
    · simp at h
    · split at h
      · simp at h
      · rename_i items' hval
        split at h
        · simp at h
        · rename_i tn' htn
          rw [Except.ok.injEq, Prod.mk.injEq] at h
          obtain ⟨rfl, rfl⟩ := h
          exact ⟨xs, hq, hval⟩
  · simp at h

/-- C2 counterexample: a successful import stores the RAW payload
document, not the normalized entries. With the answer given as 4 (the
1–4 form), the stored question document still carries the raw index 4,
which is outside the 0–3 form; the normalized index 3 exists only in
the validated entries, which the import discards after counting. -/
theorem stores_raw_answer_cex :
    (api_import "tok" [] payloadC2 (some "Bearer tok") "id-1" 0).2 =
      [⟨"id-1", "Custom Geo", some "Geo", some "Mixed", some "N/A", 1, docC2,
        "published", 0⟩] ∧
    (∃ xs, questionsArray docC2 = .jarr xs ∧ rawAnsOf (xs.getD 0 default) = some 4) ∧
    ¬(0 ≤ (4 : Int) ∧ (4 : Int) ≤ 3) ∧
    normalize_and_validate docC2 =
      .ok ([⟨"Capital of France?", ["Paris", "Rome", "Bern", "Oslo"], 3⟩], .jstr "") := by
  refine ⟨rfl, ⟨_, rfl, rfl⟩, by omega, rfl⟩

/-- C2 (amended): for every document a successful import accepts, every
raw correct-answer index (accepted in the 1–4 or 0–3 form) is
normalized into [0,3] in the VALIDATED question entries produced
during the import; the question document stored in the quiz row is the
raw payload, which keeps the raw indices. -/
theorem entries_normalized_at_import (tok : String) (store : List QuizRec)
    (p : ImportPayload) (auth : Option String) (qid : String) (now : Nat)
    (resp : ImportResp) (store2 : List QuizRec)
    (h : api_import tok store p auth qid now = (.ok resp, store2)) :
    ∃ items tn xs,
      normalize_and_validate p.json = .ok (items, tn) ∧
      questionsArray p.json = .jarr xs ∧
      items.length = xs.length ∧
      (∀ j, j < xs.length → ∃ raw, rawAnsOf (xs.getD j default) = some raw ∧
        (items.getD j ⟨"", [], 0⟩).correct = mkAnsIdx raw ∧
        0 ≤ mkAnsIdx raw ∧ mkAnsIdx raw ≤ 3) ∧
      ∃ row, store2 = store ++ [row] ∧ row.json = p.json := by
  obtain ⟨hra, items, tn, skill, dn, hnv, hsk, hdn, hresp, hst⟩ :=
    api_import_ok_inv tok store p auth qid now resp store2 h
  obtain ⟨xs, hq, hval⟩ := normalize_ok_inv p.json items tn hnv
  have hv := validateEntries_ok_inv xs 1 items hval
  refine ⟨items, tn, xs, hnv, hq, hv.1, ?_, ⟨_, hst, rfl⟩⟩
  intro j hj
  have he := hv.2 j hj
  obtain ⟨fs, n, heq, hans, hcor, h0, h3⟩ := entryCheck_ok_inv _ _ he
  refine ⟨n, ?_, hcor, ?_, ?_⟩
  · rw [heq]
    simp [rawAnsOf, hans]
  · rw [← hcor]; exact h0
  · rw [← hcor]; exact h3

/-- C2 (amended) witness: the concrete import of `docC2` (raw answer
4, normalized entry index 3). -/
theorem entries_normalized_at_import_witness :
    ∃ items tn xs,
      normalize_and_validate payloadC2.json = .ok (items, tn) ∧
      questionsArray payloadC2.json = .jarr xs ∧
      items.length = xs.length ∧
      (∀ j, j < xs.length → ∃ raw, rawAnsOf (xs.getD j default) = some raw ∧
        (items.getD j ⟨"", [], 0⟩).correct = mkAnsIdx raw ∧
        0 ≤ mkAnsIdx raw ∧ mkAnsIdx raw ≤ 3) ∧
      ∃ row, ([⟨"id-1", "Custom Geo", some "Geo", some "Mixed", some "N/A", 1, docC2,
          "published", 0⟩] : List QuizRec) = [] ++ [row] ∧ row.json = payloadC2.json :=
  entries_normalized_at_import "tok" [] payloadC2 (some "Bearer tok") "id-1" 0
    ⟨"id-1", "Custom Geo", "Geo", "Mixed", "N/A", 1⟩
    [⟨"id-1", "Custom Geo", some "Geo", some "Mixed", some "N/A", 1, docC2,
      "published", 0⟩]
    rfl

lemma pairwise_id_unique (store : List QuizRec)
    (hu : store.Pairwise (fun a b => a.id ≠ b.id)) :
    ∀ a ∈ store, ∀ b ∈ store, a.id = b.id → a = b := by
  induction store with
  | nil => intro a ha; cases ha
  | cons x t ih =>
      rcases List.pairwise_cons.mp hu with ⟨hx, ht⟩
      intro a ha b hb hid
      rcases List.mem_cons.mp ha with rfl | ha'
      · rcases List.mem_cons.mp hb with rfl | hb'
        · rfl
        · exact absurd hid (hx b hb')
      · rcases List.mem_cons.mp hb with rfl | hb'
        · exact absurd hid.symm (hx a ha')
        · exact ih ht a ha' b hb' hid

/-- C7: under unique row ids (the primary key), retrieval by id returns
exactly the stored `json` document of the row with that id when it is
published, and yields the 404 error precisely when no published row
with that id exists. -/
theorem quiz_retrieval_spec (store : List QuizRec) (qid : String)
    (hu : store.Pairwise (fun a b => a.id ≠ b.id)) :
    (∀ j, get_quiz_json store qid = .ok j ↔
        ∃ r, r ∈ store ∧ r.id = qid ∧ r.status = "published" ∧ r.json = j) ∧
    (get_quiz_json store qid = .error (.httpError 404 "Quiz not found") ↔
        ¬∃ r, r ∈ store ∧ r.id = qid ∧ r.status = "published") := by
  unfold get_quiz_json
  cases hf : store.find? (fun r => r.id == qid && r.status == "published") with
  | none =>
      have hno := List.find?_eq_none.mp hf
      constructor
      · intro j
        constructor
        · intro h; exact Except.noConfusion h
        · rintro ⟨r, hr, hid, hst, hj⟩
          exact absurd (by simp [hid, hst]) (hno r hr)
      · constructor
        · rintro _ ⟨r, hr, hid, hst⟩
          exact absurd (by simp [hid, hst]) (hno r hr)
        · intro _; rfl
  | some r =>
      have hmem := List.mem_of_find?_eq_some hf
      have hpred := List.find?_some hf
      rw [Bool.and_eq_true, beq_iff_eq, beq_iff_eq] at hpred
      constructor
      · intro j
        constructor
        · intro h
          injection h with h2
          exact ⟨r, hmem, hpred.1, hpred.2, h2⟩
        · rintro ⟨r', hr', hid', hst', hj'⟩
          have : r' = r := pairwise_id_unique store hu r' hr' r hmem (by rw [hid', hpred.1])
          subst this
          show Except.ok r'.json = Except.ok j
          rw [hj']
      · constructor
        · intro h; exact Except.noConfusion h
        · intro hcon
          exact absurd ⟨r, hmem, hpred.1, hpred.2⟩ hcon

/-- C7 witness: retrieval of a concrete published row. -/
theorem quiz_retrieval_spec_witness :
    get_quiz_json [rowC7] "i1" = .ok (JVal.jstr "doc") :=
  ((quiz_retrieval_spec [rowC7] "i1" (by simp)).1 (JVal.jstr "doc")).mpr
    ⟨rowC7, by simp, rfl, rfl, rfl⟩

end DockerApi

namespace DockerApi

lemma likeMatchF_fuel : ∀ (f g : Nat) (p s : List Char),
    p.length + s.length < f → p.length + s.length < g →
    likeMatchF f p s = likeMatchF g p s := by
  intro f
  induction f with
  | zero => intro g p s hf _; omega
  | succ f ih =>
      intro g p s hf hg
      cases g with
      | zero => omega
      | succ g =>
          cases p with
          | nil => rfl
          | cons pc ps =>
              simp only [List.length_cons] at hf hg
              simp only [likeMatchF]
              by_cases h1 : pc = '%'
              · rw [if_pos h1, if_pos h1]
                rw [ih g ps s (by omega) (by omega)]
                cases s with
                | nil => rfl
                | cons c s2 =>
                    simp only [List.length_cons] at hf hg
                    simp only [ih g (pc :: ps) s2 (by simp only [List.length_cons]; omega)
                      (by simp only [List.length_cons]; omega)]
              · rw [if_neg h1, if_neg h1]
                by_cases h2 : pc = '_'
                · rw [if_pos h2, if_pos h2]
                  cases s with
                  | nil => rfl
                  | cons c s2 =>
                      simp only [List.length_cons] at hf hg
                      simp only [ih g ps s2 (by omega) (by omega)]
                · rw [if_neg h2, if_neg h2]
                  by_cases h3 : pc = '\\'
                  · rw [if_pos h3, if_pos h3]
                    cases ps with
                    | nil => rfl
                    | cons pc2 ps2 =>
                        cases s with
                        | nil => rfl
                        | cons sc s2 =>
                            simp only [List.length_cons] at hf hg
                            simp only [ih g ps2 s2 (by omega) (by omega)]
                  · rw [if_neg h3, if_neg h3]
                    cases s with
                    | nil => rfl
                    | cons sc s2 =>
                        simp only [List.length_cons] at hf hg
                        simp only [ih g ps s2 (by omega) (by omega)]

lemma likeMatchF_eq_likeMatch (f : Nat) (p s : List Char)
    (hf : p.length + s.length < f) :
    likeMatchF f p s = likeMatch p s :=
  likeMatchF_fuel f (p.length + s.length + 1) p s hf (by omega)

lemma likeMatch_pct (ps s : List Char) :
    likeMatch ('%' :: ps) s =
      (likeMatch ps s ||
        (match s with | [] => false | _ :: s2 => likeMatch ('%' :: ps) s2)) := by
  cases s with
  | nil =>
      show (likeMatchF ('%' :: ps).length ps [] || false) = (likeMatch ps [] || false)
      rw [likeMatchF_eq_likeMatch _ _ _ (by simp only [List.length_cons, List.length_nil]; omega)]
  | cons c s2 =>
      show (likeMatchF (('%' :: ps).length + (c :: s2).length) ps (c :: s2) ||
          likeMatchF (('%' :: ps).length + (c :: s2).length) ('%' :: ps) s2) =
        (likeMatch ps (c :: s2) || likeMatch ('%' :: ps) s2)
      rw [likeMatchF_eq_likeMatch _ _ _ (by simp only [List.length_cons]; omega),
        likeMatchF_eq_likeMatch _ _ _ (by simp only [List.length_cons]; omega)]

lemma likeMatch_plain_cons (a : Char) (ps s : List Char)
    (h1 : a ≠ '%') (h2 : a ≠ '_') (h3 : a ≠ '\\') :
    likeMatch (a :: ps) s =
      (match s with
       | [] => false
       | sc :: s2 => a == sc && likeMatch ps s2) := by
  show (if a = '%' then
          likeMatchF ((a :: ps).length + s.length) ps s ||
            match s with
            | [] => false
            | _ :: s2 => likeMatchF ((a :: ps).length + s.length) (a :: ps) s2
        else if a = '_' then
          match s with
          | [] => false
          | _ :: s2 => likeMatchF ((a :: ps).length + s.length) ps s2
        else if a = '\\' then
          match ps with
          | [] => false
          | pc2 :: ps2 =>
              match s with
              | [] => false
              | sc :: s2 => pc2 == sc && likeMatchF ((a :: ps).length + s.length) ps2 s2
        else
          match s with
          | [] => false
          | sc :: s2 => a == sc && likeMatchF ((a :: ps).length + s.length) ps s2) = _
  rw [if_neg h1, if_neg h2, if_neg h3]
  cases s with
  | nil => rfl
  | cons sc s2 =>
      show (a == sc && likeMatchF ((a :: ps).length + (sc :: s2).length) ps s2) =
        (a == sc && likeMatch ps s2)
      rw [likeMatchF_eq_likeMatch _ _ _ (by simp only [List.length_cons]; omega)]

lemma likeMatch_pct_iff (ps : List Char) : ∀ (s : List Char),
    likeMatch ('%' :: ps) s = true ↔ ∃ u t, s = u ++ t ∧ likeMatch ps t = true := by
  intro s
  induction s with
  | nil =>
      rw [likeMatch_pct]
      constructor
      · intro h
        have h' : likeMatch ps [] = true := by simpa using h
        exact ⟨[], [], rfl, h'⟩
      · rintro ⟨u, t, hut, ht⟩
        obtain ⟨rfl, rfl⟩ := List.append_eq_nil.mp hut.symm
        simpa using ht
  | cons c s2 ih =>
      rw [likeMatch_pct]
      constructor
      · intro h
        have h' : likeMatch ps (c :: s2) = true ∨ likeMatch ('%' :: ps) s2 = true := by
          simpa using h
        rcases h' with h' | h'
        · exact ⟨[], c :: s2, rfl, h'⟩
        · obtain ⟨u, t, rfl, ht⟩ := ih.mp h'
          exact ⟨c :: u, t, rfl, ht⟩
      · rintro ⟨u, t, hut, ht⟩
        cases u with
        | nil =>
            simp only [List.nil_append] at hut
            subst hut
            simpa using Or.inl ht
        | cons u0 u' =>
            simp only [List.cons_append, List.cons.injEq] at hut
            obtain ⟨rfl, hs2⟩ := hut
            have hr : likeMatch ('%' :: ps) s2 = true := ih.mpr ⟨u', t, hs2, ht⟩
            simpa using Or.inr hr

lemma likeMatch_pct_nil : ∀ (s : List Char), likeMatch ['%'] s = true := by
  intro s
  induction s with
  | nil => rfl
  | cons c s2 ih =>
      rw [likeMatch_pct]
      simpa using Or.inr ih

lemma likeMatch_plain_pct (cs : List Char) : ∀ (s : List Char),
    noSpecialsL cs = true →
    (likeMatch (cs ++ ['%']) s = true ↔ ∃ t, s = cs ++ t) := by
  induction cs with
  | nil =>
      intro s _
      simp only [List.nil_append]
      constructor
      · intro _; exact ⟨s, rfl⟩
      · intro _; exact likeMatch_pct_nil s
  | cons a as ih =>
      intro s hns
      have hsplit : (!(a == '%') && !(a == '_') && !(a == '\\')) = true ∧
          noSpecialsL as = true := by
        simpa [noSpecialsL, List.all_cons, Bool.and_eq_true] using hns
      have ha1 : a ≠ '%' := by
        have := hsplit.1
        simp only [Bool.and_eq_true, Bool.not_eq_true', beq_eq_false_iff_ne, ne_eq] at this
        exact this.1.1
      have ha2 : a ≠ '_' := by
        have := hsplit.1
        simp only [Bool.and_eq_true, Bool.not_eq_true', beq_eq_false_iff_ne, ne_eq] at this
        exact this.1.2
      have ha3 : a ≠ '\\' := by
        have := hsplit.1
        simp only [Bool.and_eq_true, Bool.not_eq_true', beq_eq_false_iff_ne, ne_eq] at this
        exact this.2
      rw [show (a :: as) ++ ['%'] = a :: (as ++ ['%']) from rfl,
        likeMatch_plain_cons a (as ++ ['%']) s ha1 ha2 ha3]
      cases s with
      | nil =>
          simp
      | cons sc s2 =>
          simp only [Bool.and_eq_true, beq_iff_eq]
          rw [ih s2 hsplit.2]
          constructor
          · rintro ⟨rfl, t, rfl⟩
            exact ⟨t, rfl⟩
          · rintro ⟨t, ht⟩
            simp only [List.cons_append, List.cons.injEq] at ht
            exact ⟨ht.1.symm, t, ht.2⟩

lemma isInfB_iff (n : List Char) : ∀ (h : List Char),
    isInfB n h = true ↔ ∃ u t, h = u ++ n ++ t := by
  intro h
  induction h with
  | nil =>
      simp only [isInfB]
      rw [isPrefB_iff]
      constructor
      · rintro ⟨t, ht⟩
        exact ⟨[], t, by simpa using ht⟩
      · rintro ⟨u, t, hut⟩
        have h2 := hut.symm
        rw [List.append_assoc, List.append_eq_nil] at h2
        obtain ⟨rfl, h3⟩ := h2
        rw [List.append_eq_nil] at h3
        obtain ⟨rfl, rfl⟩ := h3
        exact ⟨[], rfl⟩
  | cons c h2 ih =>
      simp only [isInfB, Bool.or_eq_true]
      rw [isPrefB_iff, ih]
      constructor
      · rintro (⟨t, ht⟩ | ⟨u, t, hut⟩)
        · exact ⟨[], t, by simpa using ht⟩
        · exact ⟨c :: u, t, by simp [hut]⟩
      · rintro ⟨u, t, hut⟩
        cases u with
        | nil => exact Or.inl ⟨t, by simpa using hut⟩
        | cons u0 u' =>
            simp only [List.cons_append, List.cons.injEq, List.append_assoc] at hut
            right
            refine ⟨u', t, ?_⟩
            rw [List.append_assoc]
            exact hut.2

lemma likeContains_iff (needle s : List Char) (hn : noSpecialsL needle = true) :
    likeMatch ('%' :: (needle ++ ['%'])) s = true ↔ isInfB needle s = true := by
  rw [likeMatch_pct_iff, isInfB_iff]
  constructor
  · rintro ⟨u, t, rfl, ht⟩
    obtain ⟨t2, rfl⟩ := (likeMatch_plain_pct needle t hn).mp ht
    exact ⟨u, t2, by rw [List.append_assoc]⟩
  · rintro ⟨u, t2, rfl⟩
    refine ⟨u, needle ++ t2, by rw [List.append_assoc], ?_⟩
    exact (likeMatch_plain_pct needle (needle ++ t2) hn).mpr ⟨t2, rfl⟩

lemma toLower_nonspecial (c : Char)
    (h : (!(c == '%') && !(c == '_') && !(c == '\\')) = true) :
    (!(c.toLower == '%') && !(c.toLower == '_') && !(c.toLower == '\\')) = true := by
  unfold Char.toLower
  by_cases hc : c.toNat ≥ 65 ∧ c.toNat ≤ 90
  · rw [if_pos hc]
    obtain ⟨h65, h90⟩ := hc
    generalize hg : c.toNat = n at h65 h90
    interval_cases n <;> decide
  · rw [if_neg hc]
    exact h

lemma lowerL_nonspecials (cs : List Char) (h : noSpecialsL cs = true) :
    noSpecialsL (lowerL cs) = true := by
  simp only [noSpecialsL, lowerL, List.all_map] at h ⊢
  rw [List.all_eq_true] at h ⊢
  intro c hc
  exact toLower_nonspecial c (h c hc)

lemma sqlILike_substring_iff (hay : String) (q : String)
    (hq : noSpecialsL q.data = true) :
    sqlILike hay ("%" ++ q ++ "%") = true ↔ ciSubstr q hay := by
  unfold sqlILike ciSubstr
  have hdata : ("%" ++ q ++ "%").data = '%' :: (q.data ++ ['%']) := by
    rw [show ("%" ++ q ++ "%").data = (['%'] ++ q.data) ++ ['%'] from rfl]
    simp
  rw [hdata]
  have hl : lowerL ('%' :: (q.data ++ ['%'])) = '%' :: (lowerL q.data ++ ['%']) := by
    simp only [lowerL, List.map_cons, List.map_append, List.map_nil]
    rw [show ('%' : Char).toLower = '%' from by decide]
  rw [hl]
  exact likeContains_iff (lowerL q.data) (lowerL hay.data) (lowerL_nonspecials q.data hq)

end DockerApi

namespace DockerApi

/-- C8 counterexample: the search filter is a SQL ILIKE on the pattern
`%search%`, so a search string containing the wildcard `_` matches
records of which it is NOT a case-insensitive substring: searching
"a_c" returns the row named "abc" (skill "X"), though "a_c" is a
substring of neither field. -/
theorem listing_search_wildcard_cex :
    rowC8 ∈ list_quizzes [rowC8] none none (some "a_c") ∧
    ¬ciSubstr "a_c" rowC8.test_name ∧
    ¬∃ sk, rowC8.skill = some sk ∧ ciSubstr "a_c" sk := by
  refine ⟨?_, ?_, ?_⟩
  · show rowC8 ∈ [rowC8]
    exact List.mem_singleton.mpr rfl
  · intro h
    exact absurd h (by decide)
  · rintro ⟨sk, hsk, hsub⟩
    have hx : sk = "X" := by
      have : (some "X" : Option String) = some sk := hsk
      injection this with h2
      exact h2.symm
    subst hx
    exact absurd hsub (by decide)

/-- C8 (amended): a record in a listing filtered by a given (nonempty)
skill has exactly that skill value; and for a search string free of the
SQL LIKE wildcard and escape characters (`%`, `_`, `\`), a published
record matches the search filter if and only if the search string is a
case-insensitive substring of its test_name or of its skill. (A search
string containing wildcards is interpreted as a LIKE pattern instead.) -/
theorem listing_filters_spec (store : List QuizRec) :
    (∀ (sq : String) (dq srch : Option String) (r : QuizRec), sq ≠ "" →
        r ∈ list_quizzes store (some sq) dq srch → r.skill = some sq) ∧
    (∀ (q : String), q ≠ "" → noSpecialsL q.data = true →
        ∀ r : QuizRec, r ∈ list_quizzes store none none (some q) ↔
          (r ∈ store ∧ r.status = "published" ∧
            (ciSubstr q r.test_name ∨ ∃ sk, r.skill = some sk ∧ ciSubstr q sk))) := by
  constructor
  · intro sq dq srch r hsq hmem
    rw [list_quizzes, List.mem_filter] at hmem
    have hm := hmem.2
    have hot : optTruthy (some sq) = some sq := by
      simp [optTruthy, hsq]
    rw [rowMatches] at hm
    rw [hot] at hm
    simp only [Bool.and_eq_true, beq_iff_eq] at hm
    exact hm.1.1.2
  · intro q hq hns r
    have hot : optTruthy (some q) = some q := by
      simp [optTruthy, hq]
    rw [list_quizzes, List.mem_filter]
    have hmatch : rowMatches none none (some q) r = true ↔
        (r.status = "published" ∧
          (ciSubstr q r.test_name ∨ ∃ sk, r.skill = some sk ∧ ciSubstr q sk)) := by
      rw [rowMatches, hot]
      cases hrs : r.skill with
      | none =>
          simp only [optTruthy, Bool.and_true, Bool.or_false, Bool.and_eq_true, beq_iff_eq]
          rw [sqlILike_substring_iff r.test_name q hns]
          constructor
          · rintro ⟨h1, h2⟩
            exact ⟨h1, Or.inl h2⟩
          · rintro ⟨h1, h2 | ⟨sk, hsk, -⟩⟩
            · exact ⟨h1, h2⟩
            · exact absurd hsk (by simp)
      | some sk0 =>
          simp only [optTruthy, Bool.and_true, Bool.and_eq_true, Bool.or_eq_true, beq_iff_eq]
          rw [sqlILike_substring_iff r.test_name q hns,
            sqlILike_substring_iff sk0 q hns]
          constructor
          · rintro ⟨h1, h2 | h2⟩
            · exact ⟨h1, Or.inl h2⟩
            · exact ⟨h1, Or.inr ⟨sk0, rfl, h2⟩⟩
          · rintro ⟨h1, h2 | ⟨sk, hsk, hsub⟩⟩
            · exact ⟨h1, Or.inl h2⟩
            · injection hsk with hsk2
              subst hsk2
              exact ⟨h1, Or.inr hsub⟩
    constructor
    · rintro ⟨hmem, hrm⟩
      obtain ⟨h1, h2⟩ := hmatch.mp hrm
      exact ⟨hmem, h1, h2⟩
    · rintro ⟨hmem, h1, h2⟩
      exact ⟨hmem, hmatch.mpr ⟨h1, h2⟩⟩

/-- C8 witness: searching "bas" (no wildcards) among a single published
row named "abc" with skill "X" returns nothing via the iff, while the
skill filter "X" keeps the row with exactly that skill. -/
theorem listing_filters_spec_witness :
    (rowC8 ∈ list_quizzes [rowC8] (some "X") none none → rowC8.skill = some "X") ∧
    (rowC8 ∈ list_quizzes [rowC8] none none (some "bc") ↔
      (rowC8 ∈ [rowC8] ∧ rowC8.status = "published" ∧
        (ciSubstr "bc" rowC8.test_name ∨ ∃ sk, rowC8.skill = some sk ∧ ciSubstr "bc" sk))) :=
  ⟨(listing_filters_spec [rowC8]).1 "X" none none rowC8 (by decide),
   (listing_filters_spec [rowC8]).2 "bc" (by decide) (by decide) rowC8⟩

end DockerApi
